import Mathlib

set_option autoImplicit false

/-!
Verification of the Mission Control take-home repository (React frontend +
FastAPI backend agent loop) against its natural-language specification.

The repository sources under `src/` contain the frontend
(`frontend/src/App.jsx`, and the streaming variant of the same file); the
backend orchestration loop (`backend/services/claude_client.py`,
`backend/routes/chat.py`) is referenced by the docs but its code is not in
`src/`, so those parts are modelled from the spec, marked by doc comments
starting with `Modelled from the spec:`.

Part 1 embeds the streaming frontend consumer (`handleSubmit` in the
streaming `App.jsx`): SSE chunk buffering, frame parsing, per-event state
dispatch, and the conversation-list bookkeeping.
Part 2 models the backend orchestration loop from the spec.
Theorems settling the claims follow the definitions.
-/

/-! ### JS string primitives

The frontend manipulates JS strings with `trim`, `slice`, `startsWith` and
`split("\n\n")`.  They are modelled here over the character list of a Lean
`String` with structural recursion (so every definition evaluates on concrete
inputs); JS UTF-16 code-unit indexing is modelled as character indexing. -/

/-- The whitespace test of JS `trim` (restricted to the whitespace characters
that occur in chat input). -/
def isWS (c : Char) : Bool := c = ' ' ∨ c = '\n' ∨ c = '\t' ∨ c = '\r'

/-- JS `s.trim()`: strip whitespace from both ends. -/
def jsTrim (s : String) : String :=
  ⟨((s.data.dropWhile isWS).reverse.dropWhile isWS).reverse⟩

/-- JS `s.slice(n)`: drop the first `n` code units. -/
def jsSlice (n : Nat) (s : String) : String := ⟨s.data.drop n⟩

/-- JS `s.slice(0, n)`: take the first `n` code units. -/
def jsTake (n : Nat) (s : String) : String := ⟨s.data.take n⟩

/-- JS `s.startsWith(pat)`. -/
def jsStartsWith (pat s : String) : Bool := s.data.take pat.data.length = pat.data

/-- JS `s.split("\n\n")` on the character list: split at every non-overlapping
occurrence of two consecutive newlines, scanning left to right. -/
def splitBlankChars : List Char → List (List Char)
  | [] => [[]]
  | '\n' :: '\n' :: rest => [] :: splitBlankChars rest
  | c :: rest =>
      match splitBlankChars rest with
      | [] => [[c]]
      | piece :: pieces => (c :: piece) :: pieces

/-- JS `s.split("\n\n")`. -/
def splitBlank (s : String) : List String := (splitBlankChars s.data).map String.mk

/-- Lexicographic strict order on character lists, used to compare ISO
timestamp strings (string order agrees with date order for this format). -/
def charListLt : List Char → List Char → Bool
  | [], [] => false
  | [], _ :: _ => true
  | _ :: _, [] => false
  | a :: as, b :: bs => if a < b then true else if b < a then false else charListLt as bs

/-- Strict lexicographic order on strings. -/
def strLt (a b : String) : Bool := charListLt a.data b.data

/-- A chat message as held in the frontend `messages` state: `{role, content}`. -/
structure Msg where
  role : String
  content : String
deriving DecidableEq, Repr

/-- One entry of the frontend `conversations` state:
`{id, title, created_at, updated_at, message_count}`. -/
structure ConvMeta where
  id : String
  title : String
  created_at : String
  updated_at : String
  message_count : Nat
deriving DecidableEq, Repr

/-- One entry of the frontend `streamingEvents` state.  `tool_call` events are
appended as `{ ...eventData, id }` (keeping the event's `tool_name` and
`status`); `code_execution` events are appended with `status: "executing"` and
no `tool_name` (modelled as `none`, matching JS `undefined`). -/
structure StreamEntry where
  etype : String
  tool_name : Option String
  status : String
  id : String
deriving DecidableEq, Repr

/-- The parsed SSE events the consumer dispatches on (`eventData.type`). -/
inductive SSEEvent where
  | thinking (content : String)
  | codeExecution (code : String)
  | toolCall (toolName : String) (status : String)
  | toolResult (toolName : String) (status : String)
  | response (content : String)
  | errorEvent (msg : String)
deriving DecidableEq, Repr

/-- The consumer's updater for a `tool_result` event, from the streaming
`App.jsx`:

`prev.map(evt => evt.tool_name === eventData.tool_name && evt.status === "running" ? { ...evt, status: eventData.status } : evt)`

It matches by tool name plus `"running"` status, not by call identity. -/
def applyToolResult (resultName resultStatus : String) (prev : List StreamEntry) :
    List StreamEntry :=
  prev.map fun evt =>
    if evt.tool_name = some resultName ∧ evt.status = "running" then
      { evt with status := resultStatus }
    else evt

/-- Stable insertion used to model the JS stable `Array.prototype.sort` with
comparator `(a, b) => new Date(b.updated_at) - new Date(a.updated_at)`:
an element is inserted before the first entry with a strictly smaller
`updated_at` (ISO timestamps compared as strings, which agrees with date
order for this format). -/
def insertByUpdatedDesc (c : ConvMeta) : List ConvMeta → List ConvMeta
  | [] => [c]
  | d :: ds =>
      if strLt d.updated_at c.updated_at then c :: d :: ds
      else d :: insertByUpdatedDesc c ds

/-- JS stable sort of the conversation list, most recently updated first. -/
def sortByUpdatedDesc (convs : List ConvMeta) : List ConvMeta :=
  convs.foldr insertByUpdatedDesc []

/-- The conversation-list bookkeeping run when a `response` event arrives (and
likewise on turn completion in the non-streaming `App.jsx`): the current
conversation gets `updated_at := now` and `message_count + 2`, then the list is
re-sorted descending by `updated_at`. -/
def bumpConversation (convId now : String) (convs : List ConvMeta) : List ConvMeta :=
  let updated := convs.map fun c =>
    if c.id = convId then
      { c with updated_at := now, message_count := c.message_count + 2 }
    else c
  sortByUpdatedDesc updated

/-- The frontend state touched by the SSE dispatch in `handleSubmit`.
`tick` stands for `Date.now()` used to mint entry ids. -/
structure ConsumerState where
  streamingEvents : List StreamEntry
  messages : List Msg
  conversations : List ConvMeta
  streamingStatus : Option String
  tick : Nat
deriving DecidableEq, Repr

/-- The event dispatch inside the `try` block of the stream-reading loop.
Returns the updated state together with `some m` when the branch throws
(only the `error` branch does: `throw new Error(eventData.error)`); state
changes made before the throw persist, as in JS. -/
def dispatchEvent (convId now : String) (st : ConsumerState) :
    SSEEvent → ConsumerState × Option String
  | .thinking _ => ({ st with streamingStatus := some "thinking" }, none)
  | .codeExecution _ =>
      ({ st with
          streamingEvents := st.streamingEvents ++
            [⟨"code_execution", none, "executing", "code-" ++ toString st.tick⟩],
          streamingStatus := some "writing_code",
          tick := st.tick + 1 }, none)
  | .toolCall n s =>
      ({ st with
          streamingEvents := st.streamingEvents ++
            [⟨"tool_call", some n, s, n ++ "-" ++ toString st.tick⟩],
          streamingStatus := some "calling_tools",
          tick := st.tick + 1 }, none)
  | .toolResult n s =>
      ({ st with streamingEvents := applyToolResult n s st.streamingEvents }, none)
  | .response c =>
      ({ st with
          messages := st.messages ++ [⟨"assistant", c⟩],
          conversations := bumpConversation convId now st.conversations }, none)
  | .errorEvent m => (st, some m)

/-- Processing of one SSE frame, from the streaming `App.jsx` loop body:
frames not starting with `"data: "` are ignored; otherwise the payload
(`line.slice(6)`) is parsed (JSON.parse modelled by the `parse` parameter,
`none` = parse threw) and dispatched inside a `try` whose
`catch (parseError)` logs and continues — so both a parse failure and the
`error`-branch throw leave the loop running with the pre-throw state. -/
def handleFrame (parse : String → Option SSEEvent) (convId now : String)
    (st : ConsumerState) (line : String) : ConsumerState :=
  if jsStartsWith "data: " line = true then
    match parse (jsSlice 6 line) with
    | none => st
    | some e => (dispatchEvent convId now st e).1
  else st

/-- The stream-reading loop over a list of already-delimited frames. -/
def processFrames (parse : String → Option SSEEvent) (convId now : String)
    (st : ConsumerState) (frames : List String) : ConsumerState :=
  frames.foldl (handleFrame parse convId now) st

/-- The SSE chunk buffering from the streaming `App.jsx`:
`buffer += chunk; const lines = buffer.split("\n\n"); buffer = lines.pop() || ""`.
Returns the complete frames to process and the new (possibly incomplete)
buffer remainder. -/
def processChunk (buffer chunk : String) : List String × String :=
  let lines := splitBlank (buffer ++ chunk)
  (lines.dropLast, lines.getLastD "")

/-- The network requests `handleSubmit` can issue, in order. -/
inductive Request where
  | createConversation (title : String)
  | postMessage (convId role content : String)
  | chatStream (convId message : String)
deriving DecidableEq, Repr

/-- Result of the synchronous pre-stream phase of `handleSubmit`: the ordered
request trace and the `messages` state after it. -/
structure SubmitResult where
  requests : List Request
  messages : List Msg
deriving DecidableEq, Repr

/-- The pre-stream phase of `handleSubmit` (both `App.jsx` variants share it;
the non-streaming one guards on `isLoading` and posts to `/chat/` instead of
`/chat/stream`, with identical structure):

`if (!input.trim() || isStreaming) return;` then append the user message to
the UI, create a conversation titled `inputText.slice(0, 50)` when none is
current (the server-assigned id is the `newId` parameter), persist the user
message, and start the chat turn. -/
def handleSubmit (input : String) (busy : Bool) (currentConv : Option String)
    (newId : String) (messages : List Msg) : SubmitResult :=
  if jsTrim input = "" ∨ busy = true then ⟨[], messages⟩
  else
    let text := jsTrim input
    let messages' := messages ++ [⟨"user", text⟩]
    match currentConv with
    | none =>
        ⟨[.createConversation (jsTake 50 text),
          .postMessage newId "user" text,
          .chatStream newId text], messages'⟩
    | some cid =>
        ⟨[.postMessage cid "user" text,
          .chatStream cid text], messages'⟩

/-! ### Part 2: the backend agent loop, modelled from the spec

The backend (`backend/services/claude_client.py`, `backend/routes/chat.py`,
`backend/services/tools.py`) is referenced by the repository docs but its code
is not under `src/`; the definitions below are modelled from the spec
(sections 3, 4.1-4.6, 7). -/

/-- Modelled from the spec: a tool's call site (`allowedCallers` members),
spec section 3 — missing `backend/services/tools.py`. -/
inductive CallSite where
  | direct
  | program
deriving DecidableEq, Repr

/-- Modelled from the spec: a `ToolDefinition` with its `allowedCallers`
capability flags and its implementation (`(parameters) -> value`, failures as
`Except.error`) — missing `backend/services/tools.py`. -/
structure ToolDef where
  name : String
  allowedDirect : Bool
  allowedProgram : Bool
  impl : String → Except String String

/-- Modelled from the spec: Tool Registry `resolve(name)`, spec section 4.1. -/
def resolve (reg : List ToolDef) (n : String) : Option ToolDef :=
  reg.find? fun td => td.name = n

/-- Modelled from the spec: a `ToolCall` request `{toolName, parameters}`. -/
structure ToolCallReq where
  toolName : String
  parameters : String
deriving DecidableEq, Repr

/-- Modelled from the spec: a `Round`, one model invocation's outcome —
`FinalText`, `DirectToolRequest(call)` or `ProgramRequest(code, calls)` with
the program's overall return value, spec section 3. -/
inductive Round where
  | finalText (text : String)
  | directToolRequest (call : ToolCallReq)
  | programRequest (code : String) (retVal : String) (calls : List ToolCallReq)

/-- Modelled from the spec: the emitted `StreamEvent`s, spec section 6.
`callId` is the internal ToolCall identity the spec requires results to be
correlated by (section 3); the wire schema carries only `tool_name`. -/
inductive Ev where
  | thinking
  | codeExecution (code : String)
  | toolCall (callId : Nat) (name : String)
  | toolResult (callId : Nat) (name : String) (ok : Bool) (payload : String)
  | response (content : String)
  | errorEv (msg : String)
deriving DecidableEq, Repr

/-- Modelled from the spec: terminal turn status, spec sections 3 and 7. -/
inductive TurnStatus where
  | completed
  | failedCapabilityViolation
  | failedRoundLimit
deriving DecidableEq, Repr

/-- Modelled from the spec: a record of one actual dispatch to a tool's
implementation, used to state that disallowed calls never execute. -/
structure Invocation where
  callId : Nat
  toolName : String
  site : CallSite
deriving DecidableEq, Repr

/-- Modelled from the spec: the outcome of one whole Turn — emitted events in
order, terminal status, number of model rounds consumed, and the trace of
implementation dispatches. -/
structure TurnResult where
  events : List Ev
  status : TurnStatus
  rounds : Nat
  invoked : List Invocation

/-- Modelled from the spec: the degraded/explanatory message emitted when the
round cap is exceeded, spec section 4.4. -/
def degradedMessage : String := "Round limit exceeded: giving a best-effort answer."

/-- Modelled from the spec: the default hard round cap, spec section 4.4. -/
def defaultRoundCap : Nat := 10

/-- Modelled from the spec: the Execution Bridge's outcome for one program
round — emitted events, dispatched invocations, whether no capability
violation occurred, and the next fresh call id. -/
structure BridgeResult where
  events : List Ev
  invoked : List Invocation
  ok : Bool
  nextId : Nat

/-- Modelled from the spec: the Execution Bridge processing a program round's
embedded tool calls in invocation order (spec sections 4.4/4.5) — each call
emits its own `tool_call`/`tool_result` pair; `allowedCallers` must include
`program`, a violation emits the `error` event and aborts (`ok := false`); an
unresolved tool or a failing implementation yields a `tool_result` with
status=error and the program continues. -/
def processCalls (reg : List ToolDef) (nextId : Nat) :
    List ToolCallReq → BridgeResult
  | [] => ⟨[], [], true, nextId⟩
  | c :: rest =>
    match resolve reg c.toolName with
    | none =>
        ⟨Ev.toolCall nextId c.toolName ::
           Ev.toolResult nextId c.toolName false "NotFound" ::
           (processCalls reg (nextId + 1) rest).events,
         (processCalls reg (nextId + 1) rest).invoked,
         (processCalls reg (nextId + 1) rest).ok,
         (processCalls reg (nextId + 1) rest).nextId⟩
    | some td =>
        if td.allowedProgram then
          match td.impl c.parameters with
          | .ok v =>
              ⟨Ev.toolCall nextId c.toolName ::
                 Ev.toolResult nextId c.toolName true v ::
                 (processCalls reg (nextId + 1) rest).events,
               ⟨nextId, c.toolName, .program⟩ ::
                 (processCalls reg (nextId + 1) rest).invoked,
               (processCalls reg (nextId + 1) rest).ok,
               (processCalls reg (nextId + 1) rest).nextId⟩
          | .error e =>
              ⟨Ev.toolCall nextId c.toolName ::
                 Ev.toolResult nextId c.toolName false e ::
                 (processCalls reg (nextId + 1) rest).events,
               ⟨nextId, c.toolName, .program⟩ ::
                 (processCalls reg (nextId + 1) rest).invoked,
               (processCalls reg (nextId + 1) rest).ok,
               (processCalls reg (nextId + 1) rest).nextId⟩
        else
          ⟨[Ev.toolCall nextId c.toolName, Ev.errorEv "CapabilityViolation"],
           [], false, nextId + 1⟩

/-- Modelled from the spec: the Orchestration Loop of section 4.4 — missing
`backend/services/claude_client.py`.  `model` is the Model Gateway: given the
accumulated context (prior tool results / program return values folded back
in) and the round index, it produces one `Round`.  `fuel` is the remaining
round budget; exhausting it fails the Turn with `RoundLimitExceeded` while
still emitting a `response` carrying a degraded message.  A `FinalText` round
emits `response` and completes.  A direct tool request emits `tool_call`,
validates `allowedCallers` contains `direct` (violation: `error` event, Turn
aborted), invokes the tool, emits `tool_result` (status=error on failure
without aborting), folds the outcome into context and recurses.  A program
round emits `code_execution`, runs its calls through the bridge, folds the
program's return value into context and recurses. -/
def runLoop (reg : List ToolDef) (model : List String → Nat → Round) :
    Nat → List String → Nat → Nat → TurnResult
  | 0, _, round, _ =>
      { events := [Ev.response degradedMessage], status := .failedRoundLimit,
        rounds := round, invoked := [] }
  | fuel + 1, ctx, round, nextId =>
    match model ctx round with
    | .finalText t =>
        { events := [Ev.thinking, Ev.response t], status := .completed,
          rounds := round + 1, invoked := [] }
    | .directToolRequest c =>
      match resolve reg c.toolName with
      | none =>
          { events := Ev.thinking :: Ev.toolCall nextId c.toolName ::
              Ev.toolResult nextId c.toolName false "NotFound" ::
              (runLoop reg model fuel (ctx ++ ["NotFound"]) (round + 1) (nextId + 1)).events,
            status := (runLoop reg model fuel (ctx ++ ["NotFound"]) (round + 1) (nextId + 1)).status,
            rounds := (runLoop reg model fuel (ctx ++ ["NotFound"]) (round + 1) (nextId + 1)).rounds,
            invoked := (runLoop reg model fuel (ctx ++ ["NotFound"]) (round + 1) (nextId + 1)).invoked }
      | some td =>
        if td.allowedDirect then
          match td.impl c.parameters with
          | .ok v =>
              { events := Ev.thinking :: Ev.toolCall nextId c.toolName ::
                  Ev.toolResult nextId c.toolName true v ::
                  (runLoop reg model fuel (ctx ++ [v]) (round + 1) (nextId + 1)).events,
                status := (runLoop reg model fuel (ctx ++ [v]) (round + 1) (nextId + 1)).status,
                rounds := (runLoop reg model fuel (ctx ++ [v]) (round + 1) (nextId + 1)).rounds,
                invoked := ⟨nextId, c.toolName, .direct⟩ ::
                  (runLoop reg model fuel (ctx ++ [v]) (round + 1) (nextId + 1)).invoked }
          | .error e =>
              { events := Ev.thinking :: Ev.toolCall nextId c.toolName ::
                  Ev.toolResult nextId c.toolName false e ::
                  (runLoop reg model fuel (ctx ++ [e]) (round + 1) (nextId + 1)).events,
                status := (runLoop reg model fuel (ctx ++ [e]) (round + 1) (nextId + 1)).status,
                rounds := (runLoop reg model fuel (ctx ++ [e]) (round + 1) (nextId + 1)).rounds,
                invoked := ⟨nextId, c.toolName, .direct⟩ ::
                  (runLoop reg model fuel (ctx ++ [e]) (round + 1) (nextId + 1)).invoked }
        else
          { events := [Ev.thinking, Ev.toolCall nextId c.toolName,
              Ev.errorEv "CapabilityViolation"],
            status := .failedCapabilityViolation, rounds := round + 1, invoked := [] }
    | .programRequest code retVal calls =>
        if (processCalls reg nextId calls).ok then
          { events := Ev.thinking :: Ev.codeExecution code ::
              ((processCalls reg nextId calls).events ++
                (runLoop reg model fuel (ctx ++ [retVal]) (round + 1)
                  (processCalls reg nextId calls).nextId).events),
            status := (runLoop reg model fuel (ctx ++ [retVal]) (round + 1)
              (processCalls reg nextId calls).nextId).status,
            rounds := (runLoop reg model fuel (ctx ++ [retVal]) (round + 1)
              (processCalls reg nextId calls).nextId).rounds,
            invoked := (processCalls reg nextId calls).invoked ++
              (runLoop reg model fuel (ctx ++ [retVal]) (round + 1)
                (processCalls reg nextId calls).nextId).invoked }
        else
          { events := Ev.thinking :: Ev.codeExecution code ::
              (processCalls reg nextId calls).events,
            status := .failedCapabilityViolation, rounds := round + 1,
            invoked := (processCalls reg nextId calls).invoked }

/-- Modelled from the spec: one whole Turn with round cap `cap`. -/
def runTurn (reg : List ToolDef) (model : List String → Nat → Round) (cap : Nat) :
    TurnResult :=
  runLoop reg model cap [] 0 0

/-- Modelled from the spec: the Conversation of section 3 as persisted by the
backend (missing `backend/models` / persistence code): an ordered message
sequence with an `updatedAt` stamp, mutable only by appending. -/
structure Conversation where
  id : String
  msgs : List Msg
  updatedAt : Nat
deriving DecidableEq, Repr

/-- Modelled from the spec: the Persistence Adapter's `appendMessage` —
append the message and bump `updatedAt`, spec sections 3 and 6. -/
def appendMessage (c : Conversation) (m : Msg) (now : Nat) : Conversation :=
  { c with msgs := c.msgs ++ [m], updatedAt := now }

/-- Modelled from the spec: the persistence store the Context Builder reads,
keyed by conversation id — missing backend persistence code. -/
def Store : Type := List (String × List Msg)

/-- Modelled from the spec: Persistence Adapter `getMessages(conversationId)`,
spec section 6. -/
def getMessages (store : Store) (cid : String) : Option (List Msg) :=
  (store.find? fun e => e.1 = cid).map fun e => e.2

/-- Modelled from the spec: a `Context = {messages, tools}` as assembled by
the Conversation Context Builder, spec section 4.2. -/
structure Context where
  messages : List Msg
  tools : List String
deriving DecidableEq, Repr

/-- Modelled from the spec: the Conversation Context Builder
`build(conversationId)` of section 4.2 — missing backend code.  Pulls prior
messages in stored order, appends the new user message logically (without
persisting it: the store is returned unchanged), and fails with
`ConversationNotFound` (`none`) on an unknown id. -/
def build (store : Store) (tools : List String) (cid : String) (newUser : Msg) :
    Option Context × Store :=
  match getMessages store cid with
  | none => (none, store)
  | some msgs => (some ⟨msgs ++ [newUser], tools⟩, store)

/-! ### Theorems settling the claims -/

/-- Helper: `applyToolResult` leaves a list untouched when no entry matches
the result's tool name with `"running"` status. -/
theorem applyToolResult_no_match (r s : String) (l : List StreamEntry)
    (h : ∀ x ∈ l, ¬(x.tool_name = some r ∧ x.status = "running")) :
    applyToolResult r s l = l := by
  induction l with
  | nil => rfl
  | cons x xs ih =>
    have hx := h x (List.mem_cons_self x xs)
    have hxs := ih fun y hy => h y (List.mem_cons_of_mem x hy)
    simp only [applyToolResult, List.map_cons, if_neg hx] at hxs ⊢
    rw [hxs]

/-- C1, counterexample.  With two concurrent calls to the same tool in flight
(two `streamingEvents` entries with `tool_name = "get_budgets"` and
`status = "running"`), a single `tool_result` event — produced for one of the
two calls — flips the status of **both** entries, because the consumer matches
by `tool_name` plus `"running"` status instead of call identity.  So the
result is routed to a call that merely shares the tool name, refuting the
claim that a `tool_result` updates exactly the ToolCall it belongs to. -/
theorem c1_tool_result_cross_resolves :
    applyToolResult "get_budgets" "completed"
        [⟨"tool_call", some "get_budgets", "running", "get_budgets-1"⟩,
         ⟨"tool_call", some "get_budgets", "running", "get_budgets-2"⟩]
      = [⟨"tool_call", some "get_budgets", "completed", "get_budgets-1"⟩,
         ⟨"tool_call", some "get_budgets", "completed", "get_budgets-2"⟩]
    ∧ ((applyToolResult "get_budgets" "completed"
        [⟨"tool_call", some "get_budgets", "running", "get_budgets-1"⟩,
         ⟨"tool_call", some "get_budgets", "running", "get_budgets-2"⟩]).filter
          fun e => e.status ≠ "running").length = 2 := by
  constructor
  · rfl
  · rfl

/-- C1, amended.  The streaming consumer routes a `tool_result` by tool name
plus `"running"` status: every in-flight entry sharing the result's tool name
is updated (hence the cross-resolution of the counterexample), and entries
with another name or a non-running status are left untouched.  In particular,
when exactly one in-flight entry carries the result's tool name — e.g. when
all concurrent calls use distinct tools — the result updates exactly the call
it belongs to. -/
theorem c1_tool_result_routed_by_name_and_status (r s : String)
    (l r' : List StreamEntry) (e : StreamEntry)
    (he : e.tool_name = some r ∧ e.status = "running")
    (hl : ∀ x ∈ l, ¬(x.tool_name = some r ∧ x.status = "running"))
    (hr : ∀ x ∈ r', ¬(x.tool_name = some r ∧ x.status = "running")) :
    applyToolResult r s (l ++ e :: r') = l ++ { e with status := s } :: r' := by
  have hl' := applyToolResult_no_match r s l hl
  have hr' := applyToolResult_no_match r s r' hr
  simp only [applyToolResult, List.map_append, List.map_cons, if_pos he] at hl' hr' ⊢
  rw [hl', hr']

/-- C1, witness for the amended theorem: a concrete mixed event list where the
`get_budgets` result updates exactly the single running `get_budgets` entry. -/
theorem c1_amended_witness :
    applyToolResult "get_budgets" "completed"
        ([⟨"tool_call", some "get_team_members", "running", "get_team_members-1"⟩] ++
          ⟨"tool_call", some "get_budgets", "running", "get_budgets-2"⟩ ::
          [⟨"tool_call", some "get_budgets", "completed", "get_budgets-0"⟩])
      = [⟨"tool_call", some "get_team_members", "running", "get_team_members-1"⟩] ++
          ⟨"tool_call", some "get_budgets", "completed", "get_budgets-2"⟩ ::
          [⟨"tool_call", some "get_budgets", "completed", "get_budgets-0"⟩] :=
  c1_tool_result_routed_by_name_and_status "get_budgets" "completed"
    [⟨"tool_call", some "get_team_members", "running", "get_team_members-1"⟩]
    [⟨"tool_call", some "get_budgets", "completed", "get_budgets-0"⟩]
    ⟨"tool_call", some "get_budgets", "running", "get_budgets-2"⟩
    (by decide) (by decide) (by decide)

/-- C9.  A submit with empty or whitespace-only input
(`!input.trim()` falsy in JS), or while a turn is already in flight
(`isStreaming` in the streaming `App.jsx`, `isLoading` in the non-streaming
one — both feed the same guard), is a no-op: `handleSubmit` returns before
any state change, so no user message is appended, no conversation is created,
and no network request (create, persist, or chat) is issued. -/
theorem c9_submit_guard_noop (input : String) (busy : Bool)
    (currentConv : Option String) (newId : String) (messages : List Msg)
    (h : jsTrim input = "" ∨ busy = true) :
    handleSubmit input busy currentConv newId messages = ⟨[], messages⟩ := by
  unfold handleSubmit
  rw [if_pos h]

/-- C9, witness: a whitespace-only input with no turn in flight, and a
non-empty input with a turn in flight, both leave state and wire untouched. -/
theorem c9_submit_guard_noop_witness :
    handleSubmit "   " false none "42" [⟨"user", "hi"⟩] = ⟨[], [⟨"user", "hi"⟩]⟩
    ∧ handleSubmit "hello" true none "42" [] = ⟨[], []⟩ :=
  ⟨c9_submit_guard_noop "   " false none "42" [⟨"user", "hi"⟩] (Or.inl (by decide)),
   c9_submit_guard_noop "hello" true none "42" [] (Or.inr rfl)⟩

/-- C10.  A first message with no current conversation: `handleSubmit`
first issues the conversation-creation request whose title is exactly the
first 50 characters of the trimmed input (`inputText.slice(0, 50)`), then
persists the user message to the new conversation's id, and only then starts
the chat turn against that id; the trimmed user message is appended to the
UI message list. -/
theorem c10_first_message_creates_conversation (input newId : String)
    (messages : List Msg) (h : ¬ jsTrim input = "") :
    handleSubmit input false none newId messages =
      ⟨[.createConversation (jsTake 50 (jsTrim input)),
        .postMessage newId "user" (jsTrim input),
        .chatStream newId (jsTrim input)],
       messages ++ [⟨"user", jsTrim input⟩]⟩ := by
  unfold handleSubmit
  rw [if_neg]
  simp only [h, Bool.false_eq_true, or_self, not_false_eq_true]

/-- C10, witness: a concrete 60-character question is trimmed, the title is
its first 50 characters, and the three requests go out in order. -/
theorem c10_first_message_witness :
    handleSubmit
        " List engineers with unresolved P1+ incidents and their managers "
        false none "7" []
      = ⟨[.createConversation "List engineers with unresolved P1+ incidents and t",
          .postMessage "7" "user"
            "List engineers with unresolved P1+ incidents and their managers",
          .chatStream "7"
            "List engineers with unresolved P1+ incidents and their managers"],
         [⟨"user",
           "List engineers with unresolved P1+ incidents and their managers"⟩]⟩ :=
  (c10_first_message_creates_conversation
      " List engineers with unresolved P1+ incidents and their managers "
      "7" [] (by decide)).trans (by decide)

/-- Helper: a frame that does not start with `"data: "`, or whose payload the
parser rejects, leaves the consumer state unchanged — the
`catch (parseError)` handler only logs and the loop moves on. -/
theorem handleFrame_skip (parse : String → Option SSEEvent) (convId now : String)
    (st : ConsumerState) (line : String)
    (h : jsStartsWith "data: " line = false ∨ parse (jsSlice 6 line) = none) :
    handleFrame parse convId now st line = st := by
  unfold handleFrame
  rcases h with h | h
  · rw [if_neg]
    simp [h]
  · cases hst : jsStartsWith "data: " line
    · rw [if_neg]
      simp
    · rw [if_pos rfl, h]

/-- Models `JSON.parse` restricted to the concrete SSE payloads used in the
witnesses below; any other payload is a parse failure (`none`), as `JSON.parse`
throwing would be. -/
def parseTest : String → Option SSEEvent := fun s =>
  if s = "\x7b\"type\":\"error\",\"error\":\"boom\"\x7d" then
    some (.errorEvent "boom")
  else if s = "\x7b\"type\":\"response\",\"content\":\"hi\"\x7d" then
    some (.response "hi")
  else if s = "\x7b\"type\":\"tool_call\",\"tool_name\":\"get_budgets\",\"status\":\"running\"\x7d" then
    some (.toolCall "get_budgets" "running")
  else none

/-- The SSE frame carrying a top-level `error` event. -/
def errorFrame : String := "data: \x7b\"type\":\"error\",\"error\":\"boom\"\x7d"

/-- The SSE frame carrying the final `response` event. -/
def responseFrame : String := "data: \x7b\"type\":\"response\",\"content\":\"hi\"\x7d"

/-- An SSE frame whose payload is not valid JSON. -/
def malformedFrame : String := "data: not json"

/-- A concrete consumer state used by the witnesses: one running tool entry,
no messages yet, one stored conversation. -/
def initialWitnessState : ConsumerState :=
  ⟨[⟨"tool_call", some "get_budgets", "running", "get_budgets-0"⟩],
   [],
   [⟨"c1", "List P0 incidents", "2024-01-01T00:00:00", "2024-01-01T00:00:00", 2⟩],
   none, 1⟩

/-- C8.  The SSE consumer buffers partial data and only processes complete
frames: a chunk not yet terminated by a blank line yields no frame and is kept
whole in the buffer, while complete frames are split off and the trailing
incomplete piece is retained.  A frame that does not carry a `"data: "`
payload, or whose payload fails to parse, is skipped — processing the frame
list with the bad frame present equals processing it with the bad frame
removed, so subsequent frames are still handled and the turn is not failed. -/
theorem c8_sse_buffering_and_parse_skip (parse : String → Option SSEEvent)
    (convId now : String) (st : ConsumerState)
    (frames1 frames2 : List String) (bad : String)
    (h : jsStartsWith "data: " bad = false ∨ parse (jsSlice 6 bad) = none) :
    processFrames parse convId now st (frames1 ++ bad :: frames2)
      = processFrames parse convId now st (frames1 ++ frames2)
    ∧ processChunk "data: incompl" "ete" = ([], "data: incomplete")
    ∧ processChunk "data: a" "\n\ndata: b\n\ndata: c" = (["data: a", "data: b"], "data: c") := by
  refine ⟨?_, by decide, by decide⟩
  unfold processFrames
  rw [List.foldl_append, List.foldl_append, List.foldl_cons,
    handleFrame_skip parse convId now _ bad h]

/-- C8, witness: a malformed frame between two valid frames is skipped; the
tool-call frame after it is still processed. -/
theorem c8_witness :
    processFrames parseTest "c1" "2024-02-01T00:00:00" initialWitnessState
        (["data: \x7b\"type\":\"response\",\"content\":\"hi\"\x7d"] ++
          "data: not json" ::
          ["data: \x7b\"type\":\"tool_call\",\"tool_name\":\"get_budgets\",\"status\":\"running\"\x7d"])
      = processFrames parseTest "c1" "2024-02-01T00:00:00" initialWitnessState
        (["data: \x7b\"type\":\"response\",\"content\":\"hi\"\x7d"] ++
          ["data: \x7b\"type\":\"tool_call\",\"tool_name\":\"get_budgets\",\"status\":\"running\"\x7d"])
    ∧ processChunk "data: incompl" "ete" = ([], "data: incomplete")
    ∧ processChunk "data: a" "\n\ndata: b\n\ndata: c" = (["data: a", "data: b"], "data: c") :=
  c8_sse_buffering_and_parse_skip parseTest "c1" "2024-02-01T00:00:00"
    initialWitnessState
    ["data: \x7b\"type\":\"response\",\"content\":\"hi\"\x7d"]
    ["data: \x7b\"type\":\"tool_call\",\"tool_name\":\"get_budgets\",\"status\":\"running\"\x7d"]
    "data: not json" (Or.inr (by decide))

/-- A registry whose only tool always fails (e.g. with a timeout). -/
def failingToolReg : List ToolDef :=
  [⟨"get_cat_fact", true, true, fun _ => .error "Timeout"⟩]

/-- A model that requests the failing tool once and then answers with the
last context entry — which lets the run exhibit that the tool error was
folded back into context. -/
def recoveringModel : List String → Nat → Round :=
  fun ctx r =>
    if r = 0 then .directToolRequest ⟨"get_cat_fact", ""⟩
    else .finalText (ctx.getLastD "")

/-- C5, evaluation at the failing input.  A `tool_result` with status=error is
indeed non-fatal in the consumer (conjuncts i–ii: the dispatch does not throw,
it only marks the in-flight entry error).  But a top-level `error` event is
**not** fatal either, although the claim (and the code's own
`throw new Error(eventData.error)`) say it must be: the throw (conjunct iii)
is intercepted by the inner `catch (parseError)` meant for `JSON.parse`
failures, so processing the error frame leaves the state unchanged and the
loop continues (conjunct iv), and a later `response` frame is still processed
(conjunct v) — the turn proceeds with no user-visible error.
Conjuncts vi–vii check the true backend half of the claim on the spec-modelled
loop: a failing direct tool invocation emits `tool_result` status=error, the
error text is folded back into context (the model's final answer echoes it),
and the Turn still completes with a `response`. -/
theorem c5_error_event_swallowed_by_parse_catch :
    (dispatchEvent "c1" "2024-02-01T00:00:00" initialWitnessState
        (.toolResult "get_budgets" "error")).2 = none
    ∧ (dispatchEvent "c1" "2024-02-01T00:00:00" initialWitnessState
        (.toolResult "get_budgets" "error")).1.streamingEvents
      = [⟨"tool_call", some "get_budgets", "error", "get_budgets-0"⟩]
    ∧ (dispatchEvent "c1" "2024-02-01T00:00:00" initialWitnessState
        (.errorEvent "boom")).2 = some "boom"
    ∧ handleFrame parseTest "c1" "2024-02-01T00:00:00" initialWitnessState errorFrame
      = initialWitnessState
    ∧ (processFrames parseTest "c1" "2024-02-01T00:00:00" initialWitnessState
        [errorFrame, responseFrame]).messages = [⟨"assistant", "hi"⟩]
    ∧ (runTurn failingToolReg recoveringModel 10).events
      = [.thinking, .toolCall 0 "get_cat_fact",
         .toolResult 0 "get_cat_fact" false "Timeout",
         .thinking, .response "Timeout"]
    ∧ (runTurn failingToolReg recoveringModel 10).status = .completed := by
  refine ⟨rfl, by decide, rfl, by decide, by decide, by decide, by decide⟩

/-- C6.  For a known conversation id, `build` is an idempotent read: it
returns the stored messages in order with the new user message appended
logically and the given tool declarations, it leaves the store untouched (the
user message is not persisted — that is the caller's job), and calling it a
second time on the store it returned yields the identical result. -/
theorem c6_build_idempotent_read (store : Store) (tools : List String)
    (cid : String) (m : Msg) (msgs : List Msg)
    (h : getMessages store cid = some msgs) :
    (build store tools cid m).1 = some ⟨msgs ++ [m], tools⟩
    ∧ (build store tools cid m).2 = store
    ∧ build (build store tools cid m).2 tools cid m = build store tools cid m := by
  have h2 : (build store tools cid m).2 = store := by
    unfold build
    rw [h]
  refine ⟨?_, h2, ?_⟩
  · unfold build
    rw [h]
  · rw [h2]

/-- C6, witness: a store with one conversation of two messages. -/
theorem c6_build_idempotent_read_witness :
    (build [("c1", [⟨"user", "hi"⟩, ⟨"assistant", "hello"⟩])] ["get_budgets"] "c1"
        ⟨"user", "and now?"⟩).1
      = some ⟨[⟨"user", "hi"⟩, ⟨"assistant", "hello"⟩, ⟨"user", "and now?"⟩],
              ["get_budgets"]⟩
    ∧ (build [("c1", [⟨"user", "hi"⟩, ⟨"assistant", "hello"⟩])] ["get_budgets"] "c1"
        ⟨"user", "and now?"⟩).2
      = [("c1", [⟨"user", "hi"⟩, ⟨"assistant", "hello"⟩])]
    ∧ build (build [("c1", [⟨"user", "hi"⟩, ⟨"assistant", "hello"⟩])] ["get_budgets"]
          "c1" ⟨"user", "and now?"⟩).2 ["get_budgets"] "c1" ⟨"user", "and now?"⟩
      = build [("c1", [⟨"user", "hi"⟩, ⟨"assistant", "hello"⟩])] ["get_budgets"] "c1"
          ⟨"user", "and now?"⟩ :=
  c6_build_idempotent_read [("c1", [⟨"user", "hi"⟩, ⟨"assistant", "hello"⟩])]
    ["get_budgets"] "c1" ⟨"user", "and now?"⟩
    [⟨"user", "hi"⟩, ⟨"assistant", "hello"⟩] rfl

/-- Helper: inserting into the sorted conversation list is a permutation of
consing. -/
theorem insertByUpdatedDesc_perm (c : ConvMeta) (l : List ConvMeta) :
    (insertByUpdatedDesc c l).Perm (c :: l) := by
  induction l with
  | nil => exact List.Perm.refl _
  | cons d ds ih =>
    unfold insertByUpdatedDesc
    by_cases h : strLt d.updated_at c.updated_at = true
    · rw [if_pos h]
    · rw [if_neg h]
      exact (List.Perm.cons d ih).trans (List.Perm.swap c d ds)

/-- Helper: the client's stable re-sort of the conversation list is a
permutation — no conversation is dropped or duplicated. -/
theorem sortByUpdatedDesc_perm (l : List ConvMeta) :
    (sortByUpdatedDesc l).Perm l := by
  induction l with
  | nil => exact List.Perm.refl _
  | cons d ds ih =>
    exact (insertByUpdatedDesc_perm d (sortByUpdatedDesc ds)).trans
      (List.Perm.cons d ih)

/-- C7.  Conversations are mutated only by appending.  Backend (modelled from
the spec): `appendMessage` appends the new message after the existing ones —
every previously stored message is still at its old position, unmodified —
and bumps `updatedAt`.  Client (from both `App.jsx` variants): when a turn
completes, the bookkeeping maps each conversation entry, giving the current
conversation `updated_at := now` and `message_count + 2`, leaves every other
entry unchanged, and only re-orders (the re-sort is a permutation, preserving
length). -/
theorem c7_append_only_and_bookkeeping (c : Conversation) (m : Msg) (now : Nat)
    (i : Nat) (hi : i < c.msgs.length)
    (convId nowS : String) (convs : List ConvMeta) (d : ConvMeta)
    (hd : d ∈ convs) :
    (appendMessage c m now).msgs = c.msgs ++ [m]
    ∧ (appendMessage c m now).updatedAt = now
    ∧ (appendMessage c m now).msgs[i]? = c.msgs[i]?
    ∧ (bumpConversation convId nowS convs).length = convs.length
    ∧ (if d.id = convId then
         { d with updated_at := nowS, message_count := d.message_count + 2 }
       else d) ∈ bumpConversation convId nowS convs := by
  refine ⟨rfl, rfl, ?_, ?_, ?_⟩
  · show (c.msgs ++ [m])[i]? = c.msgs[i]?
    exact List.getElem?_append_left hi
  · unfold bumpConversation
    exact (sortByUpdatedDesc_perm _).length_eq.trans (List.length_map _ _)
  · unfold bumpConversation
    refine (sortByUpdatedDesc_perm _).mem_iff.mpr ?_
    exact List.mem_map_of_mem _ hd

/-- C7, witness: appending to a one-message conversation keeps the stored
message at index 0 and bumps `updatedAt`; completing a turn on `c1` bumps its
entry and keeps the list's length. -/
theorem c7_append_only_witness :
    (appendMessage ⟨"c1", [⟨"user", "hi"⟩], 5⟩ ⟨"assistant", "hello"⟩ 9).msgs
      = [⟨"user", "hi"⟩] ++ [⟨"assistant", "hello"⟩]
    ∧ (appendMessage ⟨"c1", [⟨"user", "hi"⟩], 5⟩ ⟨"assistant", "hello"⟩ 9).updatedAt = 9
    ∧ (appendMessage ⟨"c1", [⟨"user", "hi"⟩], 5⟩ ⟨"assistant", "hello"⟩ 9).msgs[0]?
      = [(⟨"user", "hi"⟩ : Msg)][0]?
    ∧ (bumpConversation "c1" "2024-02-01T00:00:00"
        [⟨"c1", "t", "2024-01-01T00:00:00", "2024-01-01T00:00:00", 2⟩,
         ⟨"c2", "u", "2024-01-02T00:00:00", "2024-01-02T00:00:00", 4⟩]).length
      = ([⟨"c1", "t", "2024-01-01T00:00:00", "2024-01-01T00:00:00", 2⟩,
          ⟨"c2", "u", "2024-01-02T00:00:00", "2024-01-02T00:00:00", 4⟩] :
            List ConvMeta).length
    ∧ (if (⟨"c1", "t", "2024-01-01T00:00:00", "2024-01-01T00:00:00", 2⟩ :
            ConvMeta).id = "c1" then
         { (⟨"c1", "t", "2024-01-01T00:00:00", "2024-01-01T00:00:00", 2⟩ :
             ConvMeta) with
           updated_at := "2024-02-01T00:00:00",
           message_count := (⟨"c1", "t", "2024-01-01T00:00:00",
             "2024-01-01T00:00:00", 2⟩ : ConvMeta).message_count + 2 }
       else ⟨"c1", "t", "2024-01-01T00:00:00", "2024-01-01T00:00:00", 2⟩)
        ∈ bumpConversation "c1" "2024-02-01T00:00:00"
          [⟨"c1", "t", "2024-01-01T00:00:00", "2024-01-01T00:00:00", 2⟩,
           ⟨"c2", "u", "2024-01-02T00:00:00", "2024-01-02T00:00:00", 4⟩] :=
  c7_append_only_and_bookkeeping ⟨"c1", [⟨"user", "hi"⟩], 5⟩ ⟨"assistant", "hello"⟩ 9
    0 (by decide) "c1" "2024-02-01T00:00:00"
    [⟨"c1", "t", "2024-01-01T00:00:00", "2024-01-01T00:00:00", 2⟩,
     ⟨"c2", "u", "2024-01-02T00:00:00", "2024-01-02T00:00:00", 4⟩]
    ⟨"c1", "t", "2024-01-01T00:00:00", "2024-01-01T00:00:00", 2⟩
    (by decide)

/-- Terminal events of a Turn's stream: `response` and `error`. -/
def isTerminal : Ev → Bool
  | .response _ => true
  | .errorEv _ => true
  | _ => false

/-- Whether an event is the `tool_call` event of the ToolCall with id `k`. -/
def isCallOf (k : Nat) : Ev → Bool
  | .toolCall i _ => i == k
  | _ => false

/-- Whether an event is the `tool_result` event of the ToolCall with id `k`. -/
def isResultOf (k : Nat) : Ev → Bool
  | .toolResult i _ _ _ => i == k
  | _ => false

/-- The stream ends with exactly one terminal event (`response` or `error`):
nothing follows it, and no earlier event is terminal. -/
def TerminalLast (evs : List Ev) : Prop :=
  ∃ front t, evs = front ++ [t] ∧ isTerminal t = true ∧
    ∀ e ∈ front, isTerminal e = false

/-- Causal order of tool events: in every prefix of the stream, the ToolCall
with id `k` has at least as many `tool_call` events as `tool_result` events —
so a `tool_result` is never emitted before its own `tool_call`. -/
def CausalBalanced (evs : List Ev) : Prop :=
  ∀ (k : Nat) (front rest : List Ev), evs = front ++ rest →
    front.countP (isResultOf k) ≤ front.countP (isCallOf k)

theorem balanced_nil : CausalBalanced [] := by
  intro k front rest h
  rcases List.append_eq_nil.mp h.symm with ⟨hf, _⟩
  subst hf
  simp

theorem balanced_append {a b : List Ev} (ha : CausalBalanced a) (hb : CausalBalanced b) :
    CausalBalanced (a ++ b) := by
  intro k front rest h
  rcases List.append_eq_append_iff.mp h.symm with ⟨a', ha', _⟩ | ⟨c', hc, hb'⟩
  · exact ha k front a' ha'
  · subst hc
    rw [List.countP_append, List.countP_append]
    exact Nat.add_le_add (ha k a [] (List.append_nil a).symm) (hb k c' rest hb')

theorem balanced_cons_nonresult {e : Ev} (he : ∀ k, isResultOf k e = false)
    {t : List Ev} (ht : CausalBalanced t) : CausalBalanced (e :: t) := by
  intro k front rest h
  cases front with
  | nil => simp
  | cons x xs =>
    rw [List.cons_append] at h
    injection h with hx hxs
    subst hx
    rw [List.countP_cons, List.countP_cons, he k]
    have := ht k xs rest hxs
    simp only [Bool.false_eq_true, if_false]
    omega

theorem balanced_pair_cons (k : Nat) (n : String) (b : Bool) (v : String)
    {t : List Ev} (ht : CausalBalanced t) :
    CausalBalanced (Ev.toolCall k n :: Ev.toolResult k n b v :: t) := by
  intro j front rest h
  cases front with
  | nil => simp
  | cons x xs =>
    rw [List.cons_append] at h
    injection h with hx hxs
    subst hx
    cases xs with
    | nil =>
      simp [List.countP_cons, isCallOf, isResultOf]
    | cons y ys =>
      rw [List.cons_append] at hxs
      injection hxs with hy hys
      subst hy
      have := ht j ys rest hys
      rw [List.countP_cons, List.countP_cons, List.countP_cons, List.countP_cons]
      simp only [isCallOf, isResultOf]
      omega

theorem terminalLast_single {t : Ev} (ht : isTerminal t = true) :
    TerminalLast [t] :=
  ⟨[], t, rfl, ht, by simp⟩

theorem terminalLast_cons {e : Ev} (he : isTerminal e = false) {t : List Ev}
    (h : TerminalLast t) : TerminalLast (e :: t) := by
  obtain ⟨front, tm, rfl, htm, hf⟩ := h
  refine ⟨e :: front, tm, rfl, htm, ?_⟩
  intro x hx
  rcases List.mem_cons.mp hx with rfl | hx
  · exact he
  · exact hf x hx

theorem terminalLast_append {l : List Ev} (hl : ∀ e ∈ l, isTerminal e = false)
    {t : List Ev} (h : TerminalLast t) : TerminalLast (l ++ t) := by
  induction l with
  | nil => exact h
  | cons x xs ih =>
    exact terminalLast_cons (hl x (List.mem_cons_self x xs))
      (ih fun e he => hl e (List.mem_cons_of_mem x he))

/-- An invocation respects the registry's capability flags: the tool resolves
and its `allowedCallers` contains the site it was dispatched from. -/
def Allowed (reg : List ToolDef) (inv : Invocation) : Prop :=
  ∃ td, resolve reg inv.toolName = some td
    ∧ (inv.site = .direct → td.allowedDirect = true)
    ∧ (inv.site = .program → td.allowedProgram = true)

theorem processCalls_balanced (reg : List ToolDef) (nid : Nat)
    (calls : List ToolCallReq) :
    CausalBalanced (processCalls reg nid calls).events := by
  induction calls generalizing nid with
  | nil => exact balanced_nil
  | cons c rest ih =>
    unfold processCalls
    split
    · exact balanced_pair_cons _ _ _ _ (ih (nid + 1))
    · split
      · split
        · exact balanced_pair_cons _ _ _ _ (ih (nid + 1))
        · exact balanced_pair_cons _ _ _ _ (ih (nid + 1))
      · refine balanced_cons_nonresult ?_ (balanced_cons_nonresult ?_ balanced_nil)
        · intro k
          rfl
        · intro k
          rfl

theorem processCalls_ok_events (reg : List ToolDef) (nid : Nat)
    (calls : List ToolCallReq) (h : (processCalls reg nid calls).ok = true) :
    ∀ e ∈ (processCalls reg nid calls).events, isTerminal e = false := by
  induction calls generalizing nid with
  | nil =>
    intro e he
    simp [processCalls] at he
  | cons c rest ih =>
    revert h
    unfold processCalls
    split
    · intro h e he
      rcases List.mem_cons.mp he with rfl | he
      · rfl
      rcases List.mem_cons.mp he with rfl | he
      · rfl
      exact ih (nid + 1) h e he
    · split
      · split
        · intro h e he
          rcases List.mem_cons.mp he with rfl | he
          · rfl
          rcases List.mem_cons.mp he with rfl | he
          · rfl
          exact ih (nid + 1) h e he
        · intro h e he
          rcases List.mem_cons.mp he with rfl | he
          · rfl
          rcases List.mem_cons.mp he with rfl | he
          · rfl
          exact ih (nid + 1) h e he
      · intro h
        exact absurd h (by simp)

theorem processCalls_violation_terminal (reg : List ToolDef) (nid : Nat)
    (calls : List ToolCallReq) (h : (processCalls reg nid calls).ok = false) :
    TerminalLast (processCalls reg nid calls).events := by
  induction calls generalizing nid with
  | nil =>
    exact absurd h (by simp [processCalls])
  | cons c rest ih =>
    revert h
    unfold processCalls
    split
    · intro h
      refine terminalLast_cons ?_ (terminalLast_cons ?_ (ih (nid + 1) h)) <;> rfl
    · split
      · split
        · intro h
          refine terminalLast_cons ?_ (terminalLast_cons ?_ (ih (nid + 1) h)) <;> rfl
        · intro h
          refine terminalLast_cons ?_ (terminalLast_cons ?_ (ih (nid + 1) h)) <;> rfl
      · intro _
        refine terminalLast_cons ?_ (terminalLast_single ?_) <;> rfl

theorem processCalls_invoked_allowed (reg : List ToolDef) (nid : Nat)
    (calls : List ToolCallReq) :
    ∀ inv ∈ (processCalls reg nid calls).invoked, Allowed reg inv := by
  induction calls generalizing nid with
  | nil =>
    intro inv hinv
    simp [processCalls] at hinv
  | cons c rest ih =>
    unfold processCalls
    split
    · exact ih (nid + 1)
    · next td hres =>
      split
      · next hp =>
        split
        · intro inv hinv
          rcases List.mem_cons.mp hinv with rfl | hinv
          · exact ⟨td, hres, fun h => CallSite.noConfusion h, fun _ => hp⟩
          · exact ih (nid + 1) inv hinv
        · intro inv hinv
          rcases List.mem_cons.mp hinv with rfl | hinv
          · exact ⟨td, hres, fun h => CallSite.noConfusion h, fun _ => hp⟩
          · exact ih (nid + 1) inv hinv
      · intro inv hinv
        simp at hinv

theorem runLoop_terminalLast (reg : List ToolDef)
    (model : List String → Nat → Round) (fuel : Nat) :
    ∀ ctx round nid, TerminalLast (runLoop reg model fuel ctx round nid).events := by
  induction fuel with
  | zero =>
    intro ctx round nid
    exact terminalLast_single rfl
  | succ fuel ih =>
    intro ctx round nid
    unfold runLoop
    split
    · refine terminalLast_cons ?_ (terminalLast_single ?_) <;> rfl
    · split
      · refine terminalLast_cons ?_ (terminalLast_cons ?_ (terminalLast_cons ?_
          (ih _ _ _))) <;> rfl
      · split
        · split
          · refine terminalLast_cons ?_ (terminalLast_cons ?_ (terminalLast_cons ?_
              (ih _ _ _))) <;> rfl
          · refine terminalLast_cons ?_ (terminalLast_cons ?_ (terminalLast_cons ?_
              (ih _ _ _))) <;> rfl
        · refine terminalLast_cons ?_ (terminalLast_cons ?_ (terminalLast_single ?_)) <;> rfl
    · next code retVal calls heq =>
      split
      · next hok =>
        refine terminalLast_cons ?_ (terminalLast_cons ?_
          (terminalLast_append (processCalls_ok_events reg nid calls hok) (ih _ _ _))) <;> rfl
      · next hok =>
        have hok' : (processCalls reg nid calls).ok = false := by
          revert hok
          cases (processCalls reg nid calls).ok <;> simp
        refine terminalLast_cons ?_ (terminalLast_cons ?_
          (processCalls_violation_terminal reg nid calls hok')) <;> rfl

theorem runLoop_balanced (reg : List ToolDef)
    (model : List String → Nat → Round) (fuel : Nat) :
    ∀ ctx round nid, CausalBalanced (runLoop reg model fuel ctx round nid).events := by
  induction fuel with
  | zero =>
    intro ctx round nid
    refine balanced_cons_nonresult ?_ balanced_nil
    intro k
    rfl
  | succ fuel ih =>
    intro ctx round nid
    unfold runLoop
    split
    · refine balanced_cons_nonresult ?_ (balanced_cons_nonresult ?_ balanced_nil) <;>
        exact fun k => rfl
    · split
      · refine balanced_cons_nonresult ?_ (balanced_pair_cons _ _ _ _ (ih _ _ _))
        exact fun k => rfl
      · split
        · split
          · refine balanced_cons_nonresult ?_ (balanced_pair_cons _ _ _ _ (ih _ _ _))
            exact fun k => rfl
          · refine balanced_cons_nonresult ?_ (balanced_pair_cons _ _ _ _ (ih _ _ _))
            exact fun k => rfl
        · refine balanced_cons_nonresult ?_ (balanced_cons_nonresult ?_
            (balanced_cons_nonresult ?_ balanced_nil)) <;> exact fun k => rfl
    · next code retVal calls heq =>
      split
      · refine balanced_cons_nonresult ?_ (balanced_cons_nonresult ?_
          (balanced_append (processCalls_balanced reg nid calls) (ih _ _ _))) <;>
          exact fun k => rfl
      · refine balanced_cons_nonresult ?_ (balanced_cons_nonresult ?_
          (processCalls_balanced reg nid calls)) <;> exact fun k => rfl

theorem runLoop_rounds_le (reg : List ToolDef)
    (model : List String → Nat → Round) (fuel : Nat) :
    ∀ ctx round nid, (runLoop reg model fuel ctx round nid).rounds ≤ round + fuel := by
  induction fuel with
  | zero =>
    intro ctx round nid
    exact Nat.le_refl _
  | succ fuel ih =>
    intro ctx round nid
    unfold runLoop
    split
    · exact Nat.add_le_add_left (Nat.succ_le_succ (Nat.zero_le _)) _
    · split
      · exact Nat.le_trans (ih _ _ _) (by omega)
      · split
        · split
          · exact Nat.le_trans (ih _ _ _) (by omega)
          · exact Nat.le_trans (ih _ _ _) (by omega)
        · exact Nat.add_le_add_left (Nat.succ_le_succ (Nat.zero_le _)) _
    · split
      · exact Nat.le_trans (ih _ _ _) (by omega)
      · exact Nat.add_le_add_left (Nat.succ_le_succ (Nat.zero_le _)) _

theorem runLoop_invoked_allowed (reg : List ToolDef)
    (model : List String → Nat → Round) (fuel : Nat) :
    ∀ ctx round nid, ∀ inv ∈ (runLoop reg model fuel ctx round nid).invoked,
      Allowed reg inv := by
  induction fuel with
  | zero =>
    intro ctx round nid inv hinv
    simp [runLoop] at hinv
  | succ fuel ih =>
    intro ctx round nid
    unfold runLoop
    split
    · intro inv hinv
      simp at hinv
    · split
      · exact ih _ _ _
      · next td hres =>
        split
        · next hd =>
          split
          · intro inv hinv
            rcases List.mem_cons.mp hinv with rfl | hinv
            · exact ⟨td, hres, fun _ => hd, fun h => CallSite.noConfusion h⟩
            · exact ih _ _ _ inv hinv
          · intro inv hinv
            rcases List.mem_cons.mp hinv with rfl | hinv
            · exact ⟨td, hres, fun _ => hd, fun h => CallSite.noConfusion h⟩
            · exact ih _ _ _ inv hinv
        · intro inv hinv
          simp at hinv
    · next code retVal calls heq =>
      split
      · intro inv hinv
        rcases List.mem_append.mp hinv with hinv | hinv
        · exact processCalls_invoked_allowed reg nid calls inv hinv
        · exact ih _ _ _ inv hinv
      · exact processCalls_invoked_allowed reg nid calls

/-- C2.  For every Turn (any registry, model behaviour, and round cap), the
emitted event stream is in strict causal order: the stream ends with exactly
one terminal `response`/`error` event — no `tool_call` or `code_execution`
(or any other) event follows it — and in every prefix of the stream each
ToolCall id has at least as many `tool_call` events as `tool_result` events,
so a `tool_result` is never emitted before its own `tool_call`.
(The backend loop is modelled from the spec, `backend/services/claude_client.py`
not being under `src/`.) -/
theorem c2_stream_causal_order (reg : List ToolDef)
    (model : List String → Nat → Round) (cap : Nat) :
    TerminalLast (runTurn reg model cap).events
    ∧ CausalBalanced (runTurn reg model cap).events :=
  ⟨runLoop_terminalLast reg model cap [] 0 0,
   runLoop_balanced reg model cap [] 0 0⟩

/-- A pathological model that requests another direct tool call on every
round, never producing a final text. -/
def pingPongModel : List String → Nat → Round :=
  fun _ _ => .directToolRequest ⟨"get_cat_fact", ""⟩

/-- A registry for the pathological run: the requested tool exists, is
callable from both sites, and always succeeds. -/
def pingPongReg : List ToolDef :=
  [⟨"get_cat_fact", true, true, fun _ => .ok "Cats sleep a lot."⟩]

/-- C3.  The number of rounds of any Turn never exceeds the configured round
cap (the loop is a total function of its fuel, so it terminates), and every
Turn's stream still ends in a terminal event.  In particular, a pathological
model that requests another tool on every round is forcibly stopped at the
default cap of 10 rounds with status `RoundLimitExceeded`, and even on that
failure path the last emitted event is a `response` carrying the degraded
message — the stream is not left hanging.
(The backend loop is modelled from the spec.) -/
theorem c3_round_cap_bounds_turn (reg : List ToolDef)
    (model : List String → Nat → Round) (cap : Nat) :
    (runTurn reg model cap).rounds ≤ cap
    ∧ TerminalLast (runTurn reg model cap).events
    ∧ (runTurn pingPongReg pingPongModel defaultRoundCap).status = .failedRoundLimit
    ∧ (runTurn pingPongReg pingPongModel defaultRoundCap).events.getLast?
        = some (.response degradedMessage)
    ∧ (runTurn pingPongReg pingPongModel defaultRoundCap).rounds = defaultRoundCap :=
  ⟨by simpa using runLoop_rounds_le reg model cap [] 0 0,
   runLoop_terminalLast reg model cap [] 0 0,
   by decide, by decide, by decide⟩

/-- C4.  A direct tool request for a tool whose `allowedCallers` does not
contain `direct` fails the Turn with `CapabilityViolation`: the `error` event
is the last event of the Turn (no retry, nothing follows), and the tool's
implementation is never dispatched — the invocation trace is empty.
Moreover (last conjunct) every invocation any Turn ever dispatches respects
the registry's `allowedCallers`, so a disallowed call never silently
executes.  (The backend loop is modelled from the spec.) -/
theorem c4_capability_violation_aborts (reg : List ToolDef)
    (model : List String → Nat → Round) (cap : Nat) (c : ToolCallReq)
    (td : ToolDef) (hcap : 0 < cap)
    (hm : model [] 0 = .directToolRequest c)
    (hres : resolve reg c.toolName = some td)
    (hdir : td.allowedDirect = false) :
    (runTurn reg model cap).status = .failedCapabilityViolation
    ∧ (runTurn reg model cap).invoked = []
    ∧ (runTurn reg model cap).events =
        [.thinking, .toolCall 0 c.toolName, .errorEv "CapabilityViolation"]
    ∧ ∀ (reg' : List ToolDef) (model' : List String → Nat → Round) (cap' : Nat),
        ∀ inv ∈ (runTurn reg' model' cap').invoked, Allowed reg' inv := by
  refine ⟨?_, ?_, ?_,
    fun reg' model' cap' => runLoop_invoked_allowed reg' model' cap' [] 0 0⟩ <;>
  · obtain ⟨k, rfl⟩ : ∃ k, cap = k + 1 := ⟨cap - 1, by omega⟩
    unfold runTurn runLoop
    simp only [hm, hres, hdir, Bool.false_eq_true, if_false]

/-- A registry with a single program-only tool (`allowedCallers={program}`). -/
def programOnlyReg : List ToolDef :=
  [⟨"query_database", false, true, fun _ => .ok "rows"⟩]

/-- A model that immediately requests the program-only tool directly. -/
def directRequestModel : List String → Nat → Round :=
  fun _ _ => .directToolRequest ⟨"query_database", ""⟩

/-- C4, witness: directly invoking the program-only `query_database` aborts
the Turn with `CapabilityViolation` and dispatches nothing. -/
theorem c4_capability_violation_witness :
    (runTurn programOnlyReg directRequestModel 10).status
        = .failedCapabilityViolation
    ∧ (runTurn programOnlyReg directRequestModel 10).invoked = []
    ∧ (runTurn programOnlyReg directRequestModel 10).events =
        [.thinking, .toolCall 0 "query_database", .errorEv "CapabilityViolation"]
    ∧ ∀ (reg' : List ToolDef) (model' : List String → Nat → Round) (cap' : Nat),
        ∀ inv ∈ (runTurn reg' model' cap').invoked, Allowed reg' inv :=
  c4_capability_violation_aborts programOnlyReg directRequestModel 10
    ⟨"query_database", ""⟩ ⟨"query_database", false, true, fun _ => .ok "rows"⟩
    (by decide) rfl rfl rfl
